import Mathlib

/-!
Verification model of `utils/loss.py` (yolov7_obb): the target-assignment and
loss-aggregation core.  Tensor entries are modelled as exact rationals; the
external torch primitives that appear inside the modelled code (sigmoid,
BCE-with-logits, rational powers) are taken as abstract function parameters,
exactly as the spec lists them among the consumed collaborators.
-/

namespace OBBLoss

/-! ## Basic numeric helpers -/

/-- Truncation toward zero of a rational: the effect of the torch cast
`.int()` applied to an exact value. -/
def ratTrunc (q : ℚ) : ℤ := if 0 ≤ q then ⌊q⌋ else -⌊-q⌋

/-- Insert a value into a descending-sorted list of rationals. -/
def insertDesc (x : ℚ) : List ℚ → List ℚ
  | [] => [x]
  | y :: ys => if y < x then x :: y :: ys else y :: insertDesc x ys

/-- Sort a list of rationals in descending order. -/
def sortDesc : List ℚ → List ℚ
  | [] => []
  | x :: xs => insertDesc x (sortDesc xs)

/-- Sum of the `k` largest entries of a list: the per-row value produced by
`torch.topk(pair_wise_iou, k, dim=1)` followed by `.sum(1)`. -/
def topkSum (k : Nat) (l : List ℚ) : ℚ := ((sortDesc l).take k).sum

/-- Dynamic k of one ground truth in `ComputeLossOTA.build_targets`
(loss.py lines 552-553): the row of pairwise IoU values is reduced by
`topk(min(10, n))`, summed, cast with `.int()` and clamped below at 1. -/
def dynamicK (row : List ℚ) : ℤ :=
  max (ratTrunc (topkSum (min 10 row.length) row)) 1

/-- Dynamic k in the auxiliary-head variant `ComputeLossAuxOTA.build_targets`
(loss.py lines 921-922), which uses `topk(min(20, n))`. -/
def dynamicKAux (row : List ℚ) : ℤ :=
  max (ratTrunc (topkSum (min 20 row.length) row)) 1

/-- Insert an index into a list of indices kept sorted by ascending cost. -/
def insertAscIdx (cost : List ℚ) (i : Nat) : List Nat → List Nat
  | [] => [i]
  | j :: js => if cost.getD i 0 < cost.getD j 0 then i :: j :: js else j :: insertAscIdx cost i js

/-- Indices `0..n-1` of a cost row, sorted by ascending cost value. -/
def sortIdxAsc (cost : List ℚ) : List Nat :=
  (List.range cost.length).foldr (insertAscIdx cost) []

/-- The index set returned by `torch.topk(cost[gt_idx], k, largest=False)`
(loss.py lines 581-584): the indices of the `k` lowest-cost candidates. -/
def selectLowestIdx (k : Nat) (cost : List ℚ) : List Nat := (sortIdxAsc cost).take k

/-- First index of a minimal entry of a list, the tie-breaking rule of
`torch.min(..., dim=0)`. -/
def argminList : List ℚ → Nat
  | [] => 0
  | [_] => 0
  | x :: xs => if x ≤ xs.getD (argminList xs) 0 then 0 else argminList xs + 1

/-- First index of a maximal entry of a list, the tie-breaking rule of
`torch.max(..., dim=-1)`. -/
def argmaxList : List ℚ → Nat
  | [] => 0
  | [_] => 0
  | x :: xs => if xs.getD (argmaxList xs) 0 ≤ x then 0 else argmaxList xs + 1

/-! ## Dynamic (OTA) conflict resolution, loss.py lines 579-594

The matching matrix has one row per ground truth of the image and one column
per decoded candidate.  `colSum` is `matching_matrix.sum(0)` at one column;
`finArgminCol` is the per-column entry of `torch.min(cost[:, mask], dim=0)`. -/

/-- Column sum of a ground-truth-by-candidate matrix, `matching_matrix.sum(0)`. -/
def colSum {m n : Nat} (M : Fin m → Fin n → ℚ) (j : Fin n) : ℚ := ∑ i, M i j

/-- Row index of the first minimal cost entry in column `j`:
the value `cost_argmin` for that column in loss.py line 590. -/
def finArgminCol {m n : Nat} (cost : Fin (m + 1) → Fin (n + 1) → ℚ) (j : Fin (n + 1)) :
    Fin (m + 1) :=
  (List.finRange (m + 1)).foldl (fun best i => if cost i j < cost best j then i else best)
    ⟨0, Nat.succ_pos m⟩

/-- Conflict-resolution step of `ComputeLossOTA.build_targets`
(loss.py lines 588-592): every column of the matching matrix claimed by more
than one ground truth is zeroed and then re-set to 1 at the row of minimal
cost for that column; other columns are left unchanged. -/
def resolveConflicts {m n : Nat} (cost M : Fin (m + 1) → Fin (n + 1) → ℚ) :
    Fin (m + 1) → Fin (n + 1) → ℚ :=
  fun i j =>
    if 1 < colSum M j then (if i = finArgminCol cost j then 1 else 0) else M i j

/-! ## Static target builder, `ComputeLoss.build_targets` lines 315-361 and
`ComputeLossOTA.find_3_positive` lines 652-692 -/

/-- One ground-truth oriented box center/size, in input pixels. -/
structure GtBox where
  x : ℚ
  y : ℚ
  w : ℚ
  h : ℚ

/-- Division of the box coordinates by the layer stride
(`t[:, :, 2:6] /= self.stride[i]`). -/
def scaleGt (s : ℚ) (b : GtBox) : GtBox := ⟨b.x / s, b.y / s, b.w / s, b.h / s⟩

/-- Anchor shape-compatibility gate (`r = t[:,:,4:6] / anchors;
j = torch.max(r, 1/r).max(2)[0] < self.hyp[anchor_t]`). -/
def ratioGate (anchorT : ℚ) (w h wa ha : ℚ) : Bool :=
  decide (max (max (w / wa) (w / wa)⁻¹) (max (h / ha) (h / ha)⁻¹) < anchorT)

/-- The five offset-selection flags stacked in loss.py lines 335-337: the
always-on center row `torch.ones_like(j)` followed by the four neighbor flags
`j, k, l, m` computed from `gxy % 1 < g`, `gxy > 1` and the mirrored
`gxi = feature_wh - gxy`.  Torch `% 1` on a float tensor is the nonnegative
remainder, i.e. `Int.fract`. -/
def offsetMask (g W H x y : ℚ) : List Bool :=
  [true,
   decide (Int.fract x < g ∧ 1 < x),
   decide (Int.fract y < g ∧ 1 < y),
   decide (Int.fract (W - x) < g ∧ 1 < W - x),
   decide (Int.fract (H - y) < g ∧ 1 < H - y)]

/-- Number of candidate rows emitted for one (ground truth, anchor) pair that
passed the ratio gate: the number of selected offsets
(`t.repeat((5,1,1))[j]` keeps one row per true flag). -/
def pairCandidateCount (g W H x y : ℚ) : Nat := (offsetMask g W H x y).count true

/-- Number of candidate rows a single ground truth contributes at one layer:
anchors failing the ratio gate contribute nothing, each passing anchor
contributes its selected offsets. -/
def gtLayerCandidateCount (anchorT g W H s : ℚ) (anchors : List (ℚ × ℚ)) (b : GtBox) : Nat :=
  let t := scaleGt s b
  (anchors.map
    (fun a => if ratioGate anchorT t.w t.h a.1 a.2 then pairCandidateCount g W H t.x t.y else 0)).sum

/-- Total candidate rows of one layer of the static builder.  With zero
ground-truth rows the code takes the `else` branch `t = targets[0]`, a tensor
with zero rows, so no candidate is emitted. -/
def buildTargetsLayerCount (anchorT g W H s : ℚ) (anchors : List (ℚ × ℚ))
    (gts : List GtBox) : Nat :=
  if gts.isEmpty then 0
  else (gts.map (gtLayerCandidateCount anchorT g W H s anchors)).sum

/-! ## Loss aggregation, `ComputeLoss.__call__` lines 211-282

The per-layer quantities produced by the external geometric and BCE
primitives are collected in `LayerLoss`; the aggregation arithmetic and
control flow around them is modelled exactly. -/

/-- Per-layer inputs of the aggregation loop: `n` matched targets, the layer
box loss `(1 - CIoU).mean()`, the class BCE, the theta BCE, and the
objectness BCE `obji` over all positions of the layer. -/
structure LayerLoss where
  n : Nat
  boxL : ℚ
  clsL : ℚ
  thetaL : ℚ
  obji : ℚ

/-- The four per-component loss weights `hyp[box]`, `hyp[obj]`, `hyp[cls]`,
`hyp[theta]`. -/
structure LossHyp where
  box : ℚ
  obj : ℚ
  cls : ℚ
  theta : ℚ

/-- Result of one `ComputeLoss.__call__`: the returned scalar, the four
weighted components of the breakdown vector, and the balance list after the
call. -/
structure LossOut where
  total : ℚ
  lbox : ℚ
  lobj : ℚ
  lcls : ℚ
  ltheta : ℚ
  balance : List ℚ

/-- The accumulation loop over layers (loss.py lines 227-269): box, class and
theta terms are added only when the layer has matched targets (`if n:`), the
class term additionally only when `self.nc > 1`; the objectness term
`obji * balance[i]` is added for every layer. -/
def lossLoop (nc : Nat) : List (LayerLoss × ℚ) → ℚ × ℚ × ℚ × ℚ → ℚ × ℚ × ℚ × ℚ
  | [], acc => acc
  | (L, bal) :: rest, (bx, ob, cl, th) =>
      lossLoop nc rest
        (if L.n ≠ 0 then bx + L.boxL else bx,
         ob + L.obji * bal,
         if L.n ≠ 0 ∧ 1 < nc then cl + L.clsL else cl,
         if L.n ≠ 0 then th + L.thetaL else th)

/-- Spec-side closed form: the accumulated box loss is the sum of box terms of
layers with matched targets. -/
def boxSum (pairs : List (LayerLoss × ℚ)) : ℚ :=
  (pairs.map (fun lb => if lb.1.n ≠ 0 then lb.1.boxL else 0)).sum

/-- Spec-side closed form: the accumulated objectness loss is the
balance-weighted sum of the per-layer objectness losses. -/
def objSum (pairs : List (LayerLoss × ℚ)) : ℚ :=
  (pairs.map (fun lb => lb.1.obji * lb.2)).sum

/-- Spec-side closed form of the accumulated class loss. -/
def clsSum (nc : Nat) (pairs : List (LayerLoss × ℚ)) : ℚ :=
  (pairs.map (fun lb => if lb.1.n ≠ 0 ∧ 1 < nc then lb.1.clsL else 0)).sum

/-- Spec-side closed form of the accumulated theta loss. -/
def thetaSum (pairs : List (LayerLoss × ℚ)) : ℚ :=
  (pairs.map (fun lb => if lb.1.n ≠ 0 then lb.1.thetaL else 0)).sum

/-- Auto-balance exponential-moving-average update of loss.py line 271:
`balance[i] = balance[i] * 0.9999 + 0.0001 / obji`. -/
def updateBalance (balance objis : List ℚ) : List ℚ :=
  List.zipWith (fun b o => b * (9999 / 10000) + (1 / 10000) / o) balance objis

/-- Renormalization of loss.py line 274:
`balance = [x / balance[ssi] for x in balance]`. -/
def renormBalance (ssi : Nat) (bal : List ℚ) : List ℚ :=
  bal.map (fun xv => xv / bal.getD ssi 0)

/-- `ComputeLoss.__call__` after `build_targets`: runs the layer loop, applies
the four hyperparameter weights, multiplies the sum by the batch size, and
(when auto-balancing) updates and renormalizes the balance list. -/
def computeLossCall (nc : Nat) (hyp : LossHyp) (autobalance : Bool) (ssi : Nat)
    (balance : List ℚ) (bs : Nat) (layers : List LayerLoss) : LossOut :=
  let r := lossLoop nc (layers.zip balance) (0, 0, 0, 0)
  let lbox := hyp.box * r.1
  let lobj := hyp.obj * r.2.1
  let lcls := hyp.cls * r.2.2.1
  let lth := hyp.theta * r.2.2.2
  let newBal :=
    if autobalance then renormBalance ssi (updateBalance balance (layers.map (fun L => L.obji)))
    else balance
  ⟨(lbox + lobj + lcls + lth) * (bs : ℚ), lbox, lobj, lcls, lth, newBal⟩

/-! ## Focal criteria construction, loss.py lines 124-151 and 196-199 -/

/-- `FocalLoss.forward` modulation (lines 134-144) applied to one element:
the raw BCE value is scaled by the alpha factor and the modulating factor
`(1 - p_t) ** gamma`.  `rpow` abstracts the torch power primitive. -/
def focalForward (rpow : ℚ → ℚ → ℚ) (gamma alpha bceVal predProb tval : ℚ) : ℚ :=
  let pt := tval * predProb + (1 - tval) * (1 - predProb)
  let alphaFactor := tval * alpha + (1 - tval) * (1 - alpha)
  let modulatingFactor := rpow (1 - pt) gamma
  bceVal * (alphaFactor * modulatingFactor)

/-- Elementwise value of a criterion built at construction (lines 196-199):
focal wrapping is applied only when `hyp[fl_gamma] > 0`, otherwise the raw
BCE-with-logits value passes through unchanged. -/
def criterionLoss (rpow : ℚ → ℚ → ℚ) (flGamma alpha bceVal predProb tval : ℚ) : ℚ :=
  if 0 < flGamma then focalForward rpow flGamma alpha bceVal predProb tval else bceVal

/-- The triple (BCEcls, BCEobj, BCEtheta) built by `ComputeLoss.__init__`:
all three are wrapped by the same `if g > 0` test. -/
def mkCriteria (rpow : ℚ → ℚ → ℚ) (flGamma alpha : ℚ) :
    (ℚ → ℚ → ℚ → ℚ) × (ℚ → ℚ → ℚ → ℚ) × (ℚ → ℚ → ℚ → ℚ) :=
  (criterionLoss rpow flGamma alpha, criterionLoss rpow flGamma alpha,
   criterionLoss rpow flGamma alpha)

/-! ## SigmoidBin, loss.py lines 37-121 -/

/-- Construction-time configuration of `SigmoidBin.__init__`. -/
structure SigmoidBinCfg where
  binCount : Nat
  minV : ℚ
  maxV : ℚ
  regScale : ℚ
  useLossRegression : Bool
  useFwRegression : Bool
  smoothEps : ℚ

/-- `self.length = bin_count + 1` (line 45). -/
def SigmoidBinCfg.length (c : SigmoidBinCfg) : Nat := c.binCount + 1

/-- `self.scale = max - min` (line 48). -/
def SigmoidBinCfg.scale (c : SigmoidBinCfg) : ℚ := c.maxV - c.minV

/-- `self.step = scale / bin_count` (line 58). -/
def SigmoidBinCfg.step (c : SigmoidBinCfg) : ℚ := c.scale / c.binCount

/-- The bin centers `torch.range(start, end, step)` of lines 56-62:
`bin_count` evenly spaced values starting at `min + (scale/2)/bin_count`. -/
def SigmoidBinCfg.bins (c : SigmoidBinCfg) : List ℚ :=
  (List.range c.binCount).map (fun i => c.minV + c.scale / (2 * c.binCount) + i * c.step)

/-- Positive smoothed target `cp = 1 - 0.5 * smooth_eps` (line 66). -/
def SigmoidBinCfg.cp (c : SigmoidBinCfg) : ℚ := 1 - c.smoothEps / 2

/-- Negative smoothed target `cn = 0.5 * smooth_eps` (line 67). -/
def SigmoidBinCfg.cn (c : SigmoidBinCfg) : ℚ := c.smoothEps / 2

/-- `result.clamp(min=self.min, max=self.max)`. -/
def clampQ (lo hi v : ℚ) : ℚ := min (max v lo) hi

/-- The assertion message of lines 76 and 93. -/
def forwardShapeErr : String := "pred.shape[-1] is not equal to self.length"

/-- The assertion message of line 94. -/
def batchShapeErr : String := "pred.shape[0] is not equal to the target.shape[0]"

/-- Width of the last dimension of a 2-d tensor modelled as a list of rows
(all rows of a tensor share one length). -/
def lastDim (t : List (List ℚ)) : Nat := (t.headD []).length

/-- `SigmoidBin.forward` (lines 75-90) on one last-dimension vector: assert
the width, split the regression channel from the bin channels, pick the
argmax bin, optionally add the regression offset, clamp. -/
def sbForward (c : SigmoidBinCfg) (pred : List ℚ) : Except String ℚ :=
  if pred.length ≠ c.length then Except.error forwardShapeErr
  else
    let predReg := (pred.getD 0 0 * c.regScale - c.regScale / 2) * c.step
    let predBin := (pred.drop 1).take c.binCount
    let binIdx := argmaxList predBin
    let binBias := c.bins.getD binIdx 0
    let result := if c.useFwRegression then predReg + binBias else binBias
    Except.ok (clampQ c.minV c.maxV result)

/-- `SigmoidBin.training_loss` (lines 92-121): assert the width and the batch
sizes, pick the nearest bin per target, build the smoothed one-hot bin
targets, add the BCE bin loss and (optionally) the MSE regression loss.
`sigmoid` and `bceBins` abstract the torch primitives used inside. -/
def sbTrainingLoss (c : SigmoidBinCfg) (sigmoid : ℚ → ℚ)
    (bceBins : List (List ℚ) → List (List ℚ) → ℚ)
    (pred : List (List ℚ)) (target : List ℚ) : Except String (ℚ × List ℚ) :=
  if lastDim pred ≠ c.length then Except.error forwardShapeErr
  else if pred.length ≠ target.length then Except.error batchShapeErr
  else
    let predReg :=
      pred.map (fun row => (sigmoid (row.getD 0 0) * c.regScale - c.regScale / 2) * c.step)
    let predBin := pred.map (fun row => (row.drop 1).take c.binCount)
    let binIdx := target.map (fun tv => argminList (c.bins.map (fun bv => |tv - bv|)))
    let binBias := binIdx.map (fun i => c.bins.getD i 0)
    let result := List.zipWith (fun a bb => a + bb) predReg binBias
    let targetBins :=
      binIdx.map (fun bi => (List.range c.binCount).map (fun jb => if jb = bi then c.cp else c.cn))
    let lossBin := bceBins predBin targetBins
    let lossRegression :=
      (List.zipWith (fun a tv => (a - tv) ^ 2) result target).sum / (result.length : ℚ)
    let loss := if c.useLossRegression then lossBin + lossRegression else lossBin
    Except.ok (loss, result.map (clampQ c.minV c.maxV))

/-! ## Concrete inputs used by the witness theorems -/

/-- Cost matrix of a two-ground-truth, one-candidate example. -/
def exCost : Fin 2 → Fin 1 → ℚ := fun i _ => (i.val : ℚ)

/-- Matching matrix in which both ground truths claim the single candidate. -/
def exMatch : Fin 2 → Fin 1 → ℚ := fun _ _ => 1

/-- A small IoU row. -/
def exIou : List ℚ := [1 / 2, 3 / 4]

/-- A cost row with the same number of candidates as `exIou`. -/
def exCostRow : List ℚ := [5, 7]

/-- Example layer inputs with matched targets. -/
def exLayers : List LayerLoss := [⟨1, 1, 1, 1, 1⟩, ⟨1, 1, 1, 1, 1⟩]

/-- Example balance list of the same length as `exLayers`. -/
def exBalance : List ℚ := [4, 1]

/-- Example layer inputs with zero matched targets. -/
def exLayersZ : List LayerLoss := [⟨0, 7, 8, 9, 2⟩]

/-- Example `SigmoidBin` configuration with two bins. -/
def exCfg : SigmoidBinCfg := ⟨2, 0, 1, 2, true, true, 0⟩

/-! ## Helper lemmas -/

theorem mem_insertDesc {x z : ℚ} {l : List ℚ} (h : z ∈ insertDesc x l) : z = x ∨ z ∈ l := by
  induction l with
  | nil => simpa [insertDesc] using h
  | cons y ys ih =>
    by_cases hc : y < x
    · simpa [insertDesc, hc, or_assoc] using h
    · simp only [insertDesc, hc, if_false, List.mem_cons] at h
      rcases h with h | h
      · exact Or.inr (by simp [h])
      · rcases ih h with h2 | h2
        · exact Or.inl h2
        · exact Or.inr (by simp [h2])

theorem length_insertDesc (x : ℚ) (l : List ℚ) : (insertDesc x l).length = l.length + 1 := by
  induction l with
  | nil => rfl
  | cons y ys ih =>
    by_cases hc : y < x
    · simp [insertDesc, hc]
    · simp [insertDesc, hc, ih]

theorem length_sortDesc (l : List ℚ) : (sortDesc l).length = l.length := by
  induction l with
  | nil => rfl
  | cons x xs ih => simp [sortDesc, length_insertDesc, ih]

theorem mem_sortDesc {z : ℚ} {l : List ℚ} (h : z ∈ sortDesc l) : z ∈ l := by
  induction l with
  | nil => simpa [sortDesc] using h
  | cons x xs ih =>
    have h2 : z ∈ insertDesc x (sortDesc xs) := by simpa [sortDesc] using h
    rcases mem_insertDesc h2 with h3 | h3
    · simp [h3]
    · exact List.mem_cons_of_mem _ (ih h3)

theorem sum_le_length_mul (l : List ℚ) (c : ℚ) (h : ∀ x ∈ l, x ≤ c) :
    l.sum ≤ (l.length : ℚ) * c := by
  induction l with
  | nil => simp
  | cons x xs ih =>
    have hx := h x (by simp)
    have hxs := ih (fun z hz => h z (by simp [hz]))
    simp only [List.sum_cons, List.length_cons]
    push_cast
    nlinarith [hx, hxs]

theorem topkSum_nonneg (k : Nat) (l : List ℚ) (h : ∀ x ∈ l, 0 ≤ x) : 0 ≤ topkSum k l := by
  refine List.sum_nonneg ?_
  intro x hx
  exact h x (mem_sortDesc (List.mem_of_mem_take hx))

theorem topkSum_le (k : Nat) (l : List ℚ) (h : ∀ x ∈ l, x ≤ 1) :
    topkSum k l ≤ ((min k l.length : Nat) : ℚ) := by
  have hlen : ((sortDesc l).take k).length = min k l.length := by
    simp [List.length_take, length_sortDesc]
  have hb := sum_le_length_mul ((sortDesc l).take k) 1
    (fun x hx => h x (mem_sortDesc (List.mem_of_mem_take hx)))
  rw [hlen] at hb
  simpa [topkSum] using hb

theorem length_insertAscIdx (cost : List ℚ) (i : Nat) (l : List Nat) :
    (insertAscIdx cost i l).length = l.length + 1 := by
  induction l with
  | nil => rfl
  | cons j js ih =>
    by_cases hc : cost.getD i 0 < cost.getD j 0
    · simp only [insertAscIdx]
      rw [if_pos hc]
      simp
    · simp only [insertAscIdx]
      rw [if_neg hc]
      simp [ih]

theorem length_foldr_insertAscIdx (cost : List ℚ) (l : List Nat) (acc : List Nat) :
    (l.foldr (insertAscIdx cost) acc).length = l.length + acc.length := by
  induction l with
  | nil => simp
  | cons a as ih =>
    simp only [List.foldr_cons, List.length_cons, length_insertAscIdx, ih]
    omega

theorem length_sortIdxAsc (cost : List ℚ) : (sortIdxAsc cost).length = cost.length := by
  unfold sortIdxAsc
  rw [length_foldr_insertAscIdx]
  simp

theorem foldl_argmin_le {k : Nat} (f : Fin k → ℚ) (l : List (Fin k)) (b : Fin k) :
    f (l.foldl (fun best i => if f i < f best then i else best) b) ≤ f b ∧
    ∀ i ∈ l, f (l.foldl (fun best i => if f i < f best then i else best) b) ≤ f i := by
  induction l generalizing b with
  | nil => simp
  | cons x xs ih =>
    simp only [List.foldl_cons]
    by_cases h : f x < f b
    · rw [if_pos h]
      refine ⟨le_trans (ih x).1 h.le, ?_⟩
      intro i hi
      rcases List.mem_cons.mp hi with h2 | h2
      · rw [h2]
        exact (ih x).1
      · exact (ih x).2 i h2
    · rw [if_neg h]
      refine ⟨(ih b).1, ?_⟩
      intro i hi
      rcases List.mem_cons.mp hi with h2 | h2
      · rw [h2]
        exact le_trans (ih b).1 (not_lt.mp h)
      · exact (ih b).2 i h2

theorem finArgminCol_le {m n : Nat} (cost : Fin (m + 1) → Fin (n + 1) → ℚ)
    (j : Fin (n + 1)) (i : Fin (m + 1)) : cost (finArgminCol cost j) j ≤ cost i j := by
  have h := (foldl_argmin_le (fun r => cost r j) (List.finRange (m + 1)) ⟨0, Nat.succ_pos m⟩).2
  exact h i (List.mem_finRange i)

/-! ## Claim theorems -/

/-- C1: after the conflict-resolution step of `ComputeLossOTA.build_targets`,
every column of the matching matrix sums to at most 1, every column that was
claimed by more than one ground truth holds a single 1 at the row selected by
the cost argmin, and that row attains the minimal total cost of the column. -/
theorem conflict_resolution_unique {m n : Nat} (cost M : Fin (m + 1) → Fin (n + 1) → ℚ)
    (hM : ∀ i j, M i j = 0 ∨ M i j = 1) :
    (∀ j, colSum (resolveConflicts cost M) j ≤ 1) ∧
    (∀ j, 1 < colSum M j → ∀ i,
       resolveConflicts cost M i j = if i = finArgminCol cost j then 1 else 0) ∧
    (∀ j i, cost (finArgminCol cost j) j ≤ cost i j) := by
  refine ⟨?_, ?_, ?_⟩
  · intro j
    by_cases h : 1 < colSum M j
    · have hcol : ∀ i : Fin (m + 1),
          resolveConflicts cost M i j = if i = finArgminCol cost j then 1 else 0 := by
        intro i
        simp only [resolveConflicts, if_pos h]
      have h1 : colSum (resolveConflicts cost M) j = 1 := by
        unfold colSum
        rw [Finset.sum_congr rfl (fun i _ => hcol i),
          Finset.sum_ite_eq' Finset.univ (finArgminCol cost j) (fun _ => (1 : ℚ))]
        simp
      simp [h1]
    · have hle : colSum M j ≤ 1 := not_lt.mp h
      have hcol : ∀ i : Fin (m + 1), resolveConflicts cost M i j = M i j := by
        intro i
        simp only [resolveConflicts, if_neg h]
      have h1 : colSum (resolveConflicts cost M) j = colSum M j := by
        unfold colSum
        exact Finset.sum_congr rfl (fun i _ => hcol i)
      rw [h1]
      exact hle
  · intro j hj i
    simp [resolveConflicts, hj]
  · intro j i
    exact finArgminCol_le cost j i

/-- Witness for C1 on a concrete two-ground-truth, one-candidate conflict. -/
theorem conflict_resolution_unique_witness :
    (∀ i j, exMatch i j = 0 ∨ exMatch i j = 1) ∧
    ((∀ j, colSum (resolveConflicts exCost exMatch) j ≤ 1) ∧
     (∀ j, 1 < colSum exMatch j → ∀ i,
        resolveConflicts exCost exMatch i j = if i = finArgminCol exCost j then 1 else 0) ∧
     (∀ j i, exCost (finArgminCol exCost j) j ≤ exCost i j)) :=
  ⟨by decide, conflict_resolution_unique exCost exMatch (by decide)⟩

/-- C2: in the dynamic target builder, the dynamic k of a ground truth equals
the truncated sum of its top-`min(10, n)` IoU values floored at 1 (`min(20,n)`
in the auxiliary-head variant), truncation agrees with the floor on
nonnegative IoU sums, and the dynamic k is always at least 1. -/
theorem dynamic_k_formula (row : List ℚ) (hn : 1 ≤ row.length) :
    dynamicK row = max 1 (ratTrunc (topkSum (min 10 row.length) row)) ∧
    dynamicKAux row = max 1 (ratTrunc (topkSum (min 20 row.length) row)) ∧
    ((∀ x ∈ row, 0 ≤ x) →
       ratTrunc (topkSum (min 10 row.length) row) = ⌊topkSum (min 10 row.length) row⌋) ∧
    1 ≤ dynamicK row ∧ 1 ≤ dynamicKAux row := by
  refine ⟨max_comm _ _, max_comm _ _, ?_, le_max_right _ _, le_max_right _ _⟩
  intro hx
  have h0 : 0 ≤ topkSum (min 10 row.length) row := topkSum_nonneg _ _ hx
  rw [ratTrunc, if_pos h0]

/-- Witness for C2 on a concrete two-candidate IoU row. -/
theorem dynamic_k_formula_witness :
    1 ≤ exIou.length ∧
    (dynamicK exIou = max 1 (ratTrunc (topkSum (min 10 exIou.length) exIou)) ∧
     dynamicKAux exIou = max 1 (ratTrunc (topkSum (min 20 exIou.length) exIou)) ∧
     ((∀ x ∈ exIou, 0 ≤ x) →
        ratTrunc (topkSum (min 10 exIou.length) exIou) = ⌊topkSum (min 10 exIou.length) exIou⌋) ∧
     1 ≤ dynamicK exIou ∧ 1 ≤ dynamicKAux exIou) :=
  ⟨by decide, dynamic_k_formula exIou (by decide)⟩

/-- C10: with pairwise IoU values in `[0, 1]` and at least one candidate, the
dynamic k of a ground truth never exceeds the number of candidates, so the
lowest-cost top-k selection of the matching loop requests exactly
`dynamic_k` entries from the cost row and is well-defined. -/
theorem dynamic_k_safe (row cost : List ℚ) (hn : 1 ≤ row.length)
    (hiou : ∀ x ∈ row, 0 ≤ x ∧ x ≤ 1) (hc : cost.length = row.length) :
    (dynamicK row).toNat ≤ cost.length ∧
    (selectLowestIdx (dynamicK row).toNat cost).length = (dynamicK row).toNat := by
  have hub := topkSum_le (min 10 row.length) row (fun x hx => (hiou x hx).2)
  have h0 : 0 ≤ topkSum (min 10 row.length) row :=
    topkSum_nonneg _ _ (fun x hx => (hiou x hx).1)
  have hle : topkSum (min 10 row.length) row ≤ ((row.length : Nat) : ℚ) := by
    refine le_trans hub ?_
    exact_mod_cast min_le_right (min 10 row.length) row.length
  have htr : ratTrunc (topkSum (min 10 row.length) row) ≤ (row.length : ℤ) := by
    rw [ratTrunc, if_pos h0]
    have hfl := Int.floor_le_floor hle
    simpa using hfl
  have hk : dynamicK row ≤ (row.length : ℤ) := by
    rw [dynamicK]
    refine max_le htr ?_
    exact_mod_cast hn
  have hk2 : (dynamicK row).toNat ≤ cost.length := by
    rw [hc]
    exact Int.toNat_le.mpr hk
  refine ⟨hk2, ?_⟩
  simp only [selectLowestIdx, List.length_take, length_sortIdxAsc]
  omega

/-- Witness for C10 on a concrete two-candidate image. -/
theorem dynamic_k_safe_witness :
    1 ≤ exIou.length ∧ (∀ x ∈ exIou, 0 ≤ x ∧ x ≤ 1) ∧ exCostRow.length = exIou.length ∧
    ((dynamicK exIou).toNat ≤ exCostRow.length ∧
     (selectLowestIdx (dynamicK exIou).toNat exCostRow).length = (dynamicK exIou).toNat) :=
  ⟨by decide, by norm_num [exIou], by decide,
   dynamic_k_safe exIou exCostRow (by decide) (by norm_num [exIou]) rfl⟩

theorem count_true_five (b1 b2 b3 b4 : Bool) :
    ([true, b1, b2, b3, b4].count true) =
      1 + (if b1 = true then 1 else 0) + (if b2 = true then 1 else 0)
        + (if b3 = true then 1 else 0) + (if b4 = true then 1 else 0) := by
  cases b1 <;> cases b2 <;> cases b3 <;> cases b4 <;> decide

/-- C3 counterexample: with the neighbor bias g = 0.5, a box whose scaled
center falls exactly on the grid point (3, 3) of a 10-by-10 feature map and a
unit anchor pass the shape gate yet produce 5 candidate rows, not at most 3. -/
theorem static_pair_five_candidates :
    ratioGate 4 1 1 1 1 = true ∧
    pairCandidateCount (1 / 2) 10 10 3 3 = 5 ∧
    ¬ pairCandidateCount (1 / 2) 10 10 3 3 ≤ 3 := by
  refine ⟨by norm_num [ratioGate], ?_, ?_⟩ <;>
  · have h3 : Int.fract (3 : ℚ) = 0 := by
      rw [show (3 : ℚ) = ((3 : ℤ) : ℚ) by norm_num, Int.fract_intCast]
    have h7 : Int.fract ((10 : ℚ) - 3) = 0 := by
      rw [show (10 : ℚ) - 3 = ((7 : ℤ) : ℚ) by norm_num, Int.fract_intCast]
    simp [pairCandidateCount, offsetMask, h3, h7]
    norm_num

/-- C3 (amended): with bias g = 0.5 and integer feature-map dimensions, each
(ground truth, anchor) pair that passes the shape gate yields between 1 and 5
candidate rows at that layer, the center candidate is always among them, and
the count is between 1 and 3 whenever neither scaled center coordinate has a
zero fractional part. -/
theorem static_pair_candidate_bounds (W H : ℤ) (x y : ℚ) (anchorT w h wa ha : ℚ)
    (hgate : ratioGate anchorT w h wa ha = true) :
    (offsetMask (1 / 2) (W : ℚ) (H : ℚ) x y).headD false = true ∧
    1 ≤ pairCandidateCount (1 / 2) (W : ℚ) (H : ℚ) x y ∧
    pairCandidateCount (1 / 2) (W : ℚ) (H : ℚ) x y ≤ 5 ∧
    (Int.fract x ≠ 0 → Int.fract y ≠ 0 →
      pairCandidateCount (1 / 2) (W : ℚ) (H : ℚ) x y ≤ 3) := by
  have hcount : pairCandidateCount (1 / 2) (W : ℚ) (H : ℚ) x y
      = 1 + (if Int.fract x < (1 : ℚ) / 2 ∧ 1 < x then 1 else 0)
          + (if Int.fract y < (1 : ℚ) / 2 ∧ 1 < y then 1 else 0)
          + (if Int.fract ((W : ℚ) - x) < (1 : ℚ) / 2 ∧ 1 < (W : ℚ) - x then 1 else 0)
          + (if Int.fract ((H : ℚ) - y) < (1 : ℚ) / 2 ∧ 1 < (H : ℚ) - y then 1 else 0) := by
    rw [pairCandidateCount, offsetMask, count_true_five]
    simp
  refine ⟨rfl, ?_, ?_, ?_⟩
  · rw [hcount]
    omega
  · rw [hcount]
    split_ifs <;> omega
  · intro hfx hfy
    have hWx : Int.fract ((W : ℚ) - x) = 1 - Int.fract x := by
      have h1 : (W : ℚ) - x = -(x - ((W : ℤ) : ℚ)) := by ring
      rw [h1, Int.fract_neg (by rw [Int.fract_sub_int]; exact hfx), Int.fract_sub_int]
    have hHy : Int.fract ((H : ℚ) - y) = 1 - Int.fract y := by
      have h1 : (H : ℚ) - y = -(y - ((H : ℤ) : ℚ)) := by ring
      rw [h1, Int.fract_neg (by rw [Int.fract_sub_int]; exact hfy), Int.fract_sub_int]
    have hx13 : ¬(Int.fract x < (1 : ℚ) / 2 ∧ Int.fract ((W : ℚ) - x) < (1 : ℚ) / 2) := by
      rintro ⟨ha1, hb1⟩
      rw [hWx] at hb1
      linarith
    have hy24 : ¬(Int.fract y < (1 : ℚ) / 2 ∧ Int.fract ((H : ℚ) - y) < (1 : ℚ) / 2) := by
      rintro ⟨ha1, hb1⟩
      rw [hHy] at hb1
      linarith
    rw [hcount]
    split_ifs <;>
      first
        | omega
        | exact absurd ⟨(‹Int.fract x < (1 : ℚ) / 2 ∧ 1 < x›).1,
            (‹Int.fract ((W : ℚ) - x) < (1 : ℚ) / 2 ∧ 1 < (W : ℚ) - x›).1⟩ hx13
        | exact absurd ⟨(‹Int.fract y < (1 : ℚ) / 2 ∧ 1 < y›).1,
            (‹Int.fract ((H : ℚ) - y) < (1 : ℚ) / 2 ∧ 1 < (H : ℚ) - y›).1⟩ hy24

/-- Witness for the amended C3 at a non-integral center. -/
theorem static_pair_candidate_bounds_witness :
    ratioGate 4 1 1 1 1 = true ∧
    ((offsetMask (1 / 2) ((10 : ℤ) : ℚ) ((10 : ℤ) : ℚ) (5 / 2) (5 / 2)).headD false = true ∧
     1 ≤ pairCandidateCount (1 / 2) ((10 : ℤ) : ℚ) ((10 : ℤ) : ℚ) (5 / 2) (5 / 2) ∧
     pairCandidateCount (1 / 2) ((10 : ℤ) : ℚ) ((10 : ℤ) : ℚ) (5 / 2) (5 / 2) ≤ 5 ∧
     (Int.fract ((5 : ℚ) / 2) ≠ 0 → Int.fract ((5 : ℚ) / 2) ≠ 0 →
       pairCandidateCount (1 / 2) ((10 : ℤ) : ℚ) ((10 : ℤ) : ℚ) (5 / 2) (5 / 2) ≤ 3)) :=
  ⟨by norm_num [ratioGate],
   static_pair_candidate_bounds 10 10 (5 / 2) (5 / 2) 4 1 1 1 1 (by norm_num [ratioGate])⟩

/-- C4: a ground truth whose stride-scaled shape fails the ratio gate against
every anchor of a layer contributes zero candidates at that layer. -/
theorem ratio_gate_excludes (anchorT g W H s : ℚ) (anchors : List (ℚ × ℚ)) (b : GtBox)
    (hfail : ∀ a ∈ anchors,
      ratioGate anchorT (scaleGt s b).w (scaleGt s b).h a.1 a.2 = false) :
    gtLayerCandidateCount anchorT g W H s anchors b = 0 := by
  rw [gtLayerCandidateCount]
  refine List.sum_eq_zero ?_
  intro z hz
  simp only [List.mem_map] at hz
  obtain ⟨a, ha, rfl⟩ := hz
  simp [hfail a ha]

/-- Witness for C4: a 100-by-100 box against a unit anchor with threshold 4. -/
theorem ratio_gate_excludes_witness :
    (∀ a ∈ [((1 : ℚ), (1 : ℚ))],
      ratioGate 4 (scaleGt 1 ⟨3, 3, 100, 100⟩).w (scaleGt 1 ⟨3, 3, 100, 100⟩).h a.1 a.2
        = false) ∧
    gtLayerCandidateCount 4 (1 / 2) 10 10 1 [((1 : ℚ), (1 : ℚ))] ⟨3, 3, 100, 100⟩ = 0 :=
  ⟨by norm_num [ratioGate, scaleGt],
   ratio_gate_excludes 4 (1 / 2) 10 10 1 _ _ (by norm_num [ratioGate, scaleGt])⟩

theorem lossLoop_eq (nc : Nat) (pairs : List (LayerLoss × ℚ)) (acc : ℚ × ℚ × ℚ × ℚ) :
    lossLoop nc pairs acc =
      (acc.1 + boxSum pairs, acc.2.1 + objSum pairs,
       acc.2.2.1 + clsSum nc pairs, acc.2.2.2 + thetaSum pairs) := by
  induction pairs generalizing acc with
  | nil => simp [lossLoop, boxSum, objSum, clsSum, thetaSum]
  | cons p ps ih =>
    obtain ⟨L, bal⟩ := p
    obtain ⟨bx, ob, cl, th⟩ := acc
    simp only [lossLoop]
    rw [ih]
    simp only [boxSum, objSum, clsSum, thetaSum, List.map_cons, List.sum_cons, Prod.mk.injEq]
    refine ⟨?_, ?_, ?_, ?_⟩ <;> first | (split_ifs <;> ring) | ring

/-- C5: when the ground-truth tensor has zero rows the static builder emits
zero candidates at every layer, and a call with zero matched targets per
layer returns zero box, class and theta components and a total equal to the
weighted objectness sum times the batch size; no error is raised (the model
is a total function). -/
theorem zero_targets_loss (nc : Nat) (hyp : LossHyp) (ab : Bool) (ssi : Nat)
    (balance : List ℚ) (bs : Nat) (layers : List LayerLoss)
    (anchorT g W H s : ℚ) (anchors : List (ℚ × ℚ))
    (hn : ∀ L ∈ layers, L.n = buildTargetsLayerCount anchorT g W H s anchors []) :
    buildTargetsLayerCount anchorT g W H s anchors [] = 0 ∧
    (computeLossCall nc hyp ab ssi balance bs layers).lbox = 0 ∧
    (computeLossCall nc hyp ab ssi balance bs layers).lcls = 0 ∧
    (computeLossCall nc hyp ab ssi balance bs layers).ltheta = 0 ∧
    (computeLossCall nc hyp ab ssi balance bs layers).total
      = hyp.obj * objSum (layers.zip balance) * (bs : ℚ) := by
  have h0 : buildTargetsLayerCount anchorT g W H s anchors [] = 0 := by
    simp [buildTargetsLayerCount]
  have hn0 : ∀ L ∈ layers, L.n = 0 := by
    intro L hL
    rw [hn L hL, h0]
  have hb0 : boxSum (layers.zip balance) = 0 := by
    refine List.sum_eq_zero ?_
    intro z hz
    simp only [List.mem_map] at hz
    obtain ⟨⟨L, bal⟩, hmem, rfl⟩ := hz
    simp [hn0 L (List.of_mem_zip hmem).1]
  have hc0 : clsSum nc (layers.zip balance) = 0 := by
    refine List.sum_eq_zero ?_
    intro z hz
    simp only [List.mem_map] at hz
    obtain ⟨⟨L, bal⟩, hmem, rfl⟩ := hz
    simp [hn0 L (List.of_mem_zip hmem).1]
  have ht0 : thetaSum (layers.zip balance) = 0 := by
    refine List.sum_eq_zero ?_
    intro z hz
    simp only [List.mem_map] at hz
    obtain ⟨⟨L, bal⟩, hmem, rfl⟩ := hz
    simp [hn0 L (List.of_mem_zip hmem).1]
  refine ⟨h0, ?_, ?_, ?_, ?_⟩ <;>
    simp [computeLossCall, lossLoop_eq, hb0, hc0, ht0]

/-- Witness for C5 on one layer with zero matched targets. -/
theorem zero_targets_loss_witness :
    (∀ L ∈ exLayersZ, L.n = buildTargetsLayerCount 4 (1 / 2) 10 10 8 [(1, 1)] []) ∧
    (buildTargetsLayerCount 4 (1 / 2) 10 10 8 [(1, 1)] [] = 0 ∧
     (computeLossCall 2 ⟨1, 1, 1, 1⟩ false 0 [4] 3 exLayersZ).lbox = 0 ∧
     (computeLossCall 2 ⟨1, 1, 1, 1⟩ false 0 [4] 3 exLayersZ).lcls = 0 ∧
     (computeLossCall 2 ⟨1, 1, 1, 1⟩ false 0 [4] 3 exLayersZ).ltheta = 0 ∧
     (computeLossCall 2 ⟨1, 1, 1, 1⟩ false 0 [4] 3 exLayersZ).total
       = (⟨1, 1, 1, 1⟩ : LossHyp).obj * objSum (exLayersZ.zip [4]) * ((3 : Nat) : ℚ)) :=
  ⟨by decide,
   zero_targets_loss 2 ⟨1, 1, 1, 1⟩ false 0 [4] 3 exLayersZ 4 (1 / 2) 10 10 8 [(1, 1)]
     (by decide)⟩

/-- C6: every call returns as its first value the weighted component sum
multiplied by the batch size and as its breakdown exactly the four weighted
components. -/
theorem loss_call_weighted_sum (nc : Nat) (hyp : LossHyp) (ab : Bool) (ssi : Nat)
    (balance : List ℚ) (bs : Nat) (layers : List LayerLoss) :
    (computeLossCall nc hyp ab ssi balance bs layers).total
      = (hyp.box * boxSum (layers.zip balance) + hyp.obj * objSum (layers.zip balance)
          + hyp.cls * clsSum nc (layers.zip balance)
          + hyp.theta * thetaSum (layers.zip balance)) * (bs : ℚ) ∧
    (computeLossCall nc hyp ab ssi balance bs layers).lbox
      = hyp.box * boxSum (layers.zip balance) ∧
    (computeLossCall nc hyp ab ssi balance bs layers).lobj
      = hyp.obj * objSum (layers.zip balance) ∧
    (computeLossCall nc hyp ab ssi balance bs layers).lcls
      = hyp.cls * clsSum nc (layers.zip balance) ∧
    (computeLossCall nc hyp ab ssi balance bs layers).ltheta
      = hyp.theta * thetaSum (layers.zip balance) := by
  refine ⟨?_, ?_, ?_, ?_, ?_⟩ <;> simp [computeLossCall, lossLoop_eq]

/-- C7: with auto-balancing enabled, the balance list returned by a call is
the per-layer EMA update `balance * 0.9999 + 0.0001 / obji` divided through
by the updated reference entry, and the reference entry of the result is
exactly 1. -/
theorem autobalance_reference_one (nc : Nat) (hyp : LossHyp) (ssi : Nat)
    (balance : List ℚ) (bs : Nat) (layers : List LayerLoss)
    (hlen : balance.length = layers.length)
    (hssi : ssi < balance.length)
    (hnz : (updateBalance balance (layers.map (fun L => L.obji))).getD ssi 0 ≠ 0) :
    (computeLossCall nc hyp true ssi balance bs layers).balance
      = renormBalance ssi (updateBalance balance (layers.map (fun L => L.obji))) ∧
    (∀ i, i < balance.length →
      ((computeLossCall nc hyp true ssi balance bs layers).balance).getD i 0
        = (balance.getD i 0 * (9999 / 10000)
            + (1 / 10000) / ((layers.map (fun L => L.obji)).getD i 0))
          / ((updateBalance balance (layers.map (fun L => L.obji))).getD ssi 0)) ∧
    ((computeLossCall nc hyp true ssi balance bs layers).balance).getD ssi 0 = 1 := by
  have hobj : (layers.map (fun L => L.obji)).length = balance.length := by
    rw [List.length_map, hlen]
  have hlenu : (updateBalance balance (layers.map (fun L => L.obji))).length
      = balance.length := by
    simp [updateBalance, List.length_zipWith, hobj]
  have hupd : ∀ i, i < balance.length →
      (updateBalance balance (layers.map (fun L => L.obji))).getD i 0
        = balance.getD i 0 * (9999 / 10000)
            + (1 / 10000) / ((layers.map (fun L => L.obji)).getD i 0) := by
    intro i hi
    have hiu : i < (updateBalance balance (layers.map (fun L => L.obji))).length := by
      rw [hlenu]
      exact hi
    have hio : i < (layers.map (fun L => L.obji)).length := by
      rw [hobj]
      exact hi
    rw [List.getD_eq_getElem _ _ hiu, List.getD_eq_getElem _ _ hi,
      List.getD_eq_getElem _ _ hio]
    simp [updateBalance]
  have hren : ∀ i, i < balance.length →
      (renormBalance ssi (updateBalance balance (layers.map (fun L => L.obji)))).getD i 0
        = (updateBalance balance (layers.map (fun L => L.obji))).getD i 0
          / (updateBalance balance (layers.map (fun L => L.obji))).getD ssi 0 := by
    intro i hi
    have hiu : i < (updateBalance balance (layers.map (fun L => L.obji))).length := by
      rw [hlenu]
      exact hi
    have hirn : i < (renormBalance ssi
        (updateBalance balance (layers.map (fun L => L.obji)))).length := by
      simpa [renormBalance] using hiu
    rw [List.getD_eq_getElem _ _ hirn, List.getD_eq_getElem _ _ hiu]
    simp [renormBalance]
  have hbal : (computeLossCall nc hyp true ssi balance bs layers).balance
      = renormBalance ssi (updateBalance balance (layers.map (fun L => L.obji))) := by
    simp [computeLossCall]
  refine ⟨hbal, ?_, ?_⟩
  · intro i hi
    rw [hbal, hren i hi, hupd i hi]
  · rw [hbal, hren ssi hssi]
    exact div_self hnz

/-- Witness for C7 with two layers, reference index 1 and unit objectness. -/
theorem autobalance_reference_one_witness :
    exBalance.length = exLayers.length ∧ 1 < exBalance.length ∧
    (updateBalance exBalance (exLayers.map (fun L => L.obji))).getD 1 0 ≠ 0 ∧
    ((computeLossCall 2 ⟨1, 1, 1, 1⟩ true 1 exBalance 3 exLayers).balance
       = renormBalance 1 (updateBalance exBalance (exLayers.map (fun L => L.obji))) ∧
     (∀ i, i < exBalance.length →
       ((computeLossCall 2 ⟨1, 1, 1, 1⟩ true 1 exBalance 3 exLayers).balance).getD i 0
         = (exBalance.getD i 0 * (9999 / 10000)
             + (1 / 10000) / ((exLayers.map (fun L => L.obji)).getD i 0))
           / ((updateBalance exBalance (exLayers.map (fun L => L.obji))).getD 1 0)) ∧
     ((computeLossCall 2 ⟨1, 1, 1, 1⟩ true 1 exBalance 3 exLayers).balance).getD 1 0 = 1) :=
  ⟨rfl, by decide, by norm_num [updateBalance, exBalance, exLayers],
   autobalance_reference_one 2 ⟨1, 1, 1, 1⟩ 1 exBalance 3 exLayers rfl (by decide)
     (by norm_num [updateBalance, exBalance, exLayers])⟩

/-- C8: when `hyp[fl_gamma] <= 0` the three criteria built at construction
are the plain BCE-with-logits losses, every value computed with them equals
the unwrapped BCE value, and the focal modulation is applied only when the
gamma is positive. -/
theorem gamma_nonpos_plain_bce (rpow : ℚ → ℚ → ℚ) (flGamma alpha : ℚ)
    (hg : flGamma ≤ 0) :
    (∀ b p t, (mkCriteria rpow flGamma alpha).1 b p t = b) ∧
    (∀ b p t, (mkCriteria rpow flGamma alpha).2.1 b p t = b) ∧
    (∀ b p t, (mkCriteria rpow flGamma alpha).2.2 b p t = b) ∧
    (∀ g2 : ℚ, 0 < g2 → ∀ b p t,
      (mkCriteria rpow g2 alpha).1 b p t = focalForward rpow g2 alpha b p t) := by
  have hng : ¬ 0 < flGamma := not_lt.mpr hg
  refine ⟨?_, ?_, ?_, ?_⟩ <;> intros <;> simp [mkCriteria, criterionLoss, hng, *]

/-- Witness for C8 at gamma = 0. -/
theorem gamma_nonpos_plain_bce_witness :
    (0 : ℚ) ≤ 0 ∧
    ((∀ b p t, (mkCriteria (fun _ _ => 0) 0 (1 / 4)).1 b p t = b) ∧
     (∀ b p t, (mkCriteria (fun _ _ => 0) 0 (1 / 4)).2.1 b p t = b) ∧
     (∀ b p t, (mkCriteria (fun _ _ => 0) 0 (1 / 4)).2.2 b p t = b) ∧
     (∀ g2 : ℚ, 0 < g2 → ∀ b p t,
       (mkCriteria (fun _ _ => 0) g2 (1 / 4)).1 b p t = focalForward (fun _ _ => 0) g2 (1 / 4) b p t)) :=
  ⟨le_refl 0, gamma_nonpos_plain_bce (fun _ _ => 0) 0 (1 / 4) (le_refl 0)⟩

/-- C9: the configured length is `bin_count + 1`; `forward` fails with the
descriptive width message exactly on width mismatch and succeeds otherwise
(never truncating or padding); `training_loss` fails with the width message
on width mismatch and with the batch message when the prediction and target
batch sizes differ. -/
theorem sigmoid_bin_contract (c : SigmoidBinCfg) (sigmoid : ℚ → ℚ)
    (bceBins : List (List ℚ) → List (List ℚ) → ℚ)
    (predBad predGood : List ℚ)
    (tBad : List (List ℚ)) (targBad : List ℚ)
    (tMis : List (List ℚ)) (targMis : List ℚ)
    (hbad : predBad.length ≠ c.length)
    (hgood : predGood.length = c.length)
    (hdim : lastDim tBad ≠ c.length)
    (hdim2 : lastDim tMis = c.length)
    (hbatch : tMis.length ≠ targMis.length) :
    c.length = c.binCount + 1 ∧
    sbForward c predBad = Except.error forwardShapeErr ∧
    (∃ v, sbForward c predGood = Except.ok v) ∧
    sbTrainingLoss c sigmoid bceBins tBad targBad = Except.error forwardShapeErr ∧
    sbTrainingLoss c sigmoid bceBins tMis targMis = Except.error batchShapeErr := by
  refine ⟨rfl, ?_, ?_, ?_, ?_⟩
  · rw [sbForward, if_pos hbad]
  · rw [sbForward, if_neg (by simp [hgood])]
    exact ⟨_, rfl⟩
  · rw [sbTrainingLoss, if_pos hdim]
  · rw [sbTrainingLoss, if_neg (by simp [hdim2]), if_pos hbatch]

/-- Witness for C9 on a two-bin configuration with concrete malformed and
well-formed inputs. -/
theorem sigmoid_bin_contract_witness :
    ([] : List ℚ).length ≠ exCfg.length ∧
    ([0, 0, 0] : List ℚ).length = exCfg.length ∧
    lastDim [[0]] ≠ exCfg.length ∧
    lastDim [[0, 0, 0]] = exCfg.length ∧
    ([[0, 0, 0]] : List (List ℚ)).length ≠ ([] : List ℚ).length ∧
    (exCfg.length = exCfg.binCount + 1 ∧
     sbForward exCfg [] = Except.error forwardShapeErr ∧
     (∃ v, sbForward exCfg [0, 0, 0] = Except.ok v) ∧
     sbTrainingLoss exCfg (fun q => q) (fun _ _ => 0) [[0]] [] = Except.error forwardShapeErr ∧
     sbTrainingLoss exCfg (fun q => q) (fun _ _ => 0) [[0, 0, 0]] []
       = Except.error batchShapeErr) :=
  ⟨by decide, by decide, by decide, by decide, by decide,
   sigmoid_bin_contract exCfg (fun q => q) (fun _ _ => 0) [] [0, 0, 0] [[0]] [] [[0, 0, 0]] []
     (by decide) (by decide) (by decide) (by decide) (by decide)⟩

end OBBLoss
